import Mathlib

/-!
Shallow embedding of the weekly utilization tracker (`src/Timesheet.py`).

Modelling conventions:
* Timestamps (ISO 8601 strings in the source, compared and subtracted after
  `parse_iso`) are modelled as rational numbers of seconds; `parse_iso` is the
  identity on this representation.  `parse_iso(None)` raises `TypeError` in
  Python, so a session whose start slot holds `None` makes the surrounding
  computation fail: fallible computations return `Option`.
* Calendar dates are modelled by their proleptic-Gregorian ordinal
  (`date.toordinal`), an integer; ordinal 1 (0001-01-01) is a Monday, so
  `date.weekday()` is `(ordinal - 1) % 7` and `date + timedelta(days = k)` is
  ordinal addition.
* The persisted JSON document (`timesheet_data.json`) is a dict keyed by the
  string `f"{emp}::{week.isoformat()}"`; since the employee names contain no
  `::`, the key is modelled by the pair `(employee, weekOrdinal)`.  A Python
  dict (insertion ordered, unique keys) is modelled as an association list.
* A JSON object with optional keys (`submitted`, `server_upload_status`) is a
  structure with `Option` fields; an absent key is `none`.
* A Dash callback that raises (e.g. `IndexError`) delivers no outputs, so the
  stored state is unchanged; such a call is modelled as returning `none`.
-/

namespace Timesheet

/-- Timestamps: seconds, as exact rationals (`parse_iso` image). -/
abbrev Timestamp := ℚ

/-- `_monday_of` uses `d.weekday()`: Monday is 0.  On ordinals this is
`(d - 1) % 7`. -/
def weekday (d : Int) : Int := (d - 1) % 7

/-- `_monday_of(d) = d - timedelta(days=d.weekday())`. -/
def monday_of (d : Int) : Int := d - weekday d

/-- Python `round` on the exact value: round half to even. -/
def pyRound (q : ℚ) : Int :=
  let f := ⌊q⌋
  if q - f < 1 / 2 then f
  else if 1 / 2 < q - f then f + 1
  else if f % 2 = 0 then f else f + 1

/-- Zero-pad a decimal string on the left to width `w`. -/
def padZeros (w : Nat) (s : String) : String :=
  String.mk (List.replicate (w - s.length) '0') ++ s

/-- Python `f"{n:02d}"`: total width 2, sign included, zero padding after the
sign. -/
def zfill2 (n : Int) : String :=
  if n < 0 then "-" ++ padZeros 1 (toString n.natAbs)
  else padZeros 2 (toString n.toNat)

/-- `format_hours_hhmm`: `total_minutes = int(round(hours_float * 60))`,
`hh = total_minutes // 60`, `mm = total_minutes % 60`, `f"{hh:02d}:{mm:02d}"`.
Python `//` is floor division (`Int.fdiv`) and `%` is `Int.emod` for the
positive modulus 60. -/
def format_hours_hhmm (hours_float : ℚ) : String :=
  let total_minutes := pyRound (hours_float * 60)
  let hh := Int.fdiv total_minutes 60
  let mm := Int.emod total_minutes 60
  zfill2 hh ++ ":" ++ zfill2 mm

/-- One element of a `"sessions"` list: `[start, end]`.  The start slot is
whatever `d["running_start"]` held when the session was closed, which can be
`None` (stored as JSON `null`). -/
abbrev Session := Option Timestamp × Timestamp

/-- One element of a `"days"` list:
`{"sessions": [...], "notes": str, "running_start": ISO|None}`. -/
structure Day where
  sessions : List Session
  notes : String
  running_start : Option Timestamp
deriving DecidableEq

/-- One element of a `"rows"` list:
`{"task": str, "subtask": str, "days": [...]}`. -/
structure Row where
  task : String
  subtask : String
  days : List Day
deriving DecidableEq

/-- One value of the top-level JSON dict.  `load_user` creates it as
`{"rows": []}`; `submit_week` later adds `"submitted"` and
`"server_upload_status"`.  Absent keys are `none`. -/
structure Entry where
  rows : List Row
  submitted : Option Bool
  server_upload_status : Option Int
deriving DecidableEq

/-- The persisted JSON document: an insertion-ordered dict from
`(employee, week-ordinal)` to `Entry`. -/
abbrev Store := List ((String × Int) × Entry)

/-- Dict lookup `data.get(key)`. -/
def Store.get : Store → (String × Int) → Option Entry
  | [], _ => none
  | p :: rest, k => if p.1 = k then some p.2 else Store.get rest k

/-- Dict assignment `data[key] = v`: replace in place, or append a new key. -/
def Store.set : Store → (String × Int) → Entry → Store
  | [], k, v => [(k, v)]
  | p :: rest, k, v => if p.1 = k then (k, v) :: rest else p :: Store.set rest k v

/-- `data.get(key, {}).get("rows", [])`. -/
def rowsOf (s : Store) (k : String × Int) : List Row :=
  match s.get k with
  | some e => e.rows
  | none => []

/-- `data[key]["rows"] = rows` (the code only reaches this with the key
present; an absent key would raise, modelled as leaving the store alone on
the unreachable branch). -/
def setRows (s : Store) (k : String × Int) (rows : List Row) : Store :=
  match s.get k with
  | some e => Store.set s k { e with rows := rows }
  | none => s

theorem Store.get_set_self (s : Store) (k : String × Int) (v : Entry) :
    (Store.set s k v).get k = some v := by
  induction s with
  | nil => simp [Store.set, Store.get]
  | cons p rest ih =>
    by_cases h : p.1 = k
    · simp [Store.set, Store.get, h]
    · simp [Store.set, Store.get, h, ih]

theorem Store.get_set_ne (s : Store) (k k' : String × Int) (v : Entry)
    (h : k' ≠ k) : (Store.set s k v).get k' = s.get k' := by
  induction s with
  | nil => simp [Store.set, Store.get, Ne.symm h]
  | cons p rest ih =>
    by_cases hp : p.1 = k
    · simp only [Store.set, if_pos hp, Store.get]
      rw [if_neg (fun hh => h hh.symm), if_neg (by rw [hp]; exact fun hh => h hh.symm)]
    · simp only [Store.set, if_neg hp, Store.get, ih]

theorem rowsOf_eq_of_get {s : Store} {k : String × Int} {e : Entry}
    (h : s.get k = some e) : rowsOf s k = e.rows := by
  simp [rowsOf, h]

theorem setRows_eq_of_get {s : Store} {k : String × Int} {e : Entry}
    (h : s.get k = some e) (rows : List Row) :
    setRows s k rows = Store.set s k { e with rows := rows } := by
  simp [setRows, h]

theorem rowsOf_setRows_self {s : Store} {k : String × Int} {e : Entry}
    (h : s.get k = some e) (rows : List Row) :
    rowsOf (setRows s k rows) k = rows := by
  rw [setRows_eq_of_get h, rowsOf_eq_of_get (Store.get_set_self s k _)]

/-- Hours of one closed session: `(parse_iso(e) - parse_iso(s)).total_seconds()
/ 3600.0`; a `None` start makes `parse_iso` raise `TypeError`. -/
def session_hours : Session → Option ℚ
  | (some s, e) => some ((e - s) / 3600)
  | (none, _) => none

/-- The `for s, e in day_obj.get("sessions", [])` accumulation loop of
`day_total_hours`. -/
def sessions_hours : List Session → Option ℚ
  | [] => some 0
  | se :: rest => do
    let h ← session_hours se
    let hs ← sessions_hours rest
    pure (h + hs)

/-- `running_hours`: elapsed hours of the open interval, `0.0` when no timer
runs. -/
def running_hours (d : Day) (now : Timestamp) : ℚ :=
  match d.running_start with
  | some st => (now - st) / 3600
  | none => 0

/-- `day_total_hours`: closed sessions plus the live running interval. -/
def day_total_hours (d : Day) (now : Timestamp) : Option ℚ := do
  let hs ← sessions_hours d.sessions
  pure (hs + running_hours d now)

/-- `rows[r]["days"][di]` as a lookup: `none` when either index is out of
range (Python would raise `IndexError`). -/
def getCell (rows : List Row) (r di : Nat) : Option Day :=
  (rows.get? r).bind fun row => row.days.get? di

/-- Replace the day object at `(r, di)` (in-place mutation of the nested
lists in Python). -/
def setCell (rows : List Row) (r di : Nat) (d : Day) : List Row :=
  match rows.get? r with
  | some row => rows.set r { row with days := row.days.set di d }
  | none => rows

theorem list_get?_set_self {α : Type} (l : List α) (i : Nat) (a : α)
    (h : i < l.length) : (l.set i a).get? i = some a := by
  induction l generalizing i with
  | nil => simp at h
  | cons x xs ih =>
    cases i with
    | zero => simp [List.set]
    | succ j => simpa [List.set] using ih j (by simpa using h)

theorem list_get?_set_ne {α : Type} (l : List α) (i j : Nat) (a : α)
    (h : i ≠ j) : (l.set i a).get? j = l.get? j := by
  induction l generalizing i j with
  | nil => simp [List.set]
  | cons x xs ih =>
    cases i with
    | zero =>
      cases j with
      | zero => exact absurd rfl h
      | succ j' => simp [List.set]
    | succ i' =>
      cases j with
      | zero => simp [List.set]
      | succ j' => simpa [List.set] using ih i' j' (fun hh => h (by rw [hh]))

theorem getCell_setCell_self {rows : List Row} {r di : Nat} {d : Day}
    (h : getCell rows r di = some d) (d' : Day) :
    getCell (setCell rows r di d') r di = some d' := by
  simp only [getCell] at h
  rcases hr : rows.get? r with _ | row
  · rw [hr] at h; simp at h
  · rw [hr] at h
    simp only [Option.some_bind] at h
    have hrlt : r < rows.length := List.get?_eq_some.mp hr |>.choose
    have hdlt : di < row.days.length := List.get?_eq_some.mp h |>.choose
    simp only [setCell, hr, getCell]
    rw [list_get?_set_self rows r _ hrlt]
    simp only [Option.some_bind]
    exact list_get?_set_self row.days di d' hdlt

theorem getCell_setCell_ne {rows : List Row} {r di r' di' : Nat} {d' : Day}
    (h : (r, di) ≠ (r', di')) :
    getCell (setCell rows r di d') r' di' = getCell rows r' di' := by
  simp only [setCell]
  rcases hr : rows.get? r with _ | row
  · rfl
  · by_cases hrr : r = r'
    · subst hrr
      have hdd : di ≠ di' := by
        intro hh; exact h (by rw [hh])
      simp only [getCell]
      rw [list_get?_set_self rows r _ (List.get?_eq_some.mp hr |>.choose), hr]
      simp only [Option.some_bind]
      exact list_get?_set_ne row.days di di' _ hdd
    · simp only [getCell]
      rw [list_get?_set_ne rows r r' _ hrr]

/-- 1 when this day object has `running_start` set, else 0. -/
def dayWeight (d : Day) : Nat := if d.running_start.isSome then 1 else 0

/-- Number of running timers in one row. -/
def rowCount (row : Row) : Nat := (row.days.map dayWeight).sum

/-- Number of `DayRecord`s of the whole sheet whose `running_start` is set. -/
def runningCount (rows : List Row) : Nat := (rows.map rowCount).sum

theorem sum_map_set {α : Type} (l : List α) (f : α → Nat) (i : Nat) (a : α)
    (hi : i < l.length) (b : α) (hb : l.get? i = some b) :
    ((l.set i a).map f).sum + f b = (l.map f).sum + f a := by
  induction l generalizing i with
  | nil => simp at hi
  | cons x xs ih =>
    cases i with
    | zero =>
      simp only [List.get?] at hb
      cases hb
      simp [List.set]
      omega
    | succ j =>
      have := ih j (by simpa using hi) (by simpa using hb)
      simp only [List.set, List.map_cons, List.sum_cons]
      omega

theorem runningCount_setCell {rows : List Row} {r di : Nat} {d : Day}
    (h : getCell rows r di = some d) (d' : Day) :
    runningCount (setCell rows r di d') + dayWeight d
      = runningCount rows + dayWeight d' := by
  simp only [getCell] at h
  rcases hr : rows.get? r with _ | row
  · rw [hr] at h; simp at h
  · rw [hr] at h
    simp only [Option.some_bind] at h
    have hrlt : r < rows.length := List.get?_eq_some.mp hr |>.choose
    have hdlt : di < row.days.length := List.get?_eq_some.mp h |>.choose
    simp only [setCell, hr, runningCount]
    have hrow := sum_map_set rows rowCount r
      { row with days := row.days.set di d' } hrlt row hr
    have hday := sum_map_set row.days dayWeight di d' hdlt d h
    simp only [rowCount] at hrow ⊢
    omega

theorem dayWeight_eq_zero_of_runningCount_zero {rows : List Row} {r di : Nat}
    {d : Day} (hc : runningCount rows = 0) (h : getCell rows r di = some d) :
    d.running_start = none := by
  simp only [getCell] at h
  rcases hr : rows.get? r with _ | row
  · rw [hr] at h; simp at h
  · rw [hr] at h
    simp only [Option.some_bind] at h
    have hrow : row ∈ rows := List.get?_mem hr
    have hday : d ∈ row.days := List.get?_mem h
    have h1 : rowCount row = 0 := by
      have := (List.sum_eq_zero_iff.mp hc) (rowCount row)
        (List.mem_map_of_mem rowCount hrow)
      exact this
    have h2 : dayWeight d = 0 := by
      have := (List.sum_eq_zero_iff.mp h1) (dayWeight d)
        (List.mem_map_of_mem dayWeight hday)
      exact this
    simp only [dayWeight] at h2
    rcases hd : d.running_start with _ | t
    · rfl
    · rw [hd] at h2; simp at h2

/-- The `ui-store` value: its `"running"` field, `[row, day]` or `None`. -/
abbrev UIStore := Option (Nat × Nat)

/-- Close an open interval in place:
`d["sessions"].append([d["running_start"], now_iso()]); d["running_start"] = None`. -/
def stopDay (d : Day) (now : Timestamp) : Day :=
  { d with sessions := d.sessions ++ [(d.running_start, now)], running_start := none }

/-- The `toggle` callback after its trigger/parse guards (`row`, `day` already
parsed from the button id, hence natural numbers).  `none` models the
`IndexError` raised by `rows[row]["days"][day]` when `day` is out of range;
the callback then delivers no outputs, so stored state is unchanged. -/
def toggle (store : Store) (ui : UIStore) (emp : String) (week : Int)
    (row day : Nat) (now : Timestamp) (today : Int) : Option (Store × UIStore) :=
  let key := (emp, week)
  let rows := rowsOf store key
  if rows.length ≤ row then some (store, ui)
  else
    match getCell rows row day with
    | none => none
    | some d =>
      if ui = some (row, day) then
        some (setRows store key (setCell rows row day (stopDay d now)), none)
      else if week + (day : Int) = today then
        let rows1 :=
          match ui with
          | some (r, di) =>
            match getCell rows r di with
            | some old =>
              if old.running_start.isSome then setCell rows r di (stopDay old now)
              else rows
            | none => rows
          | none => rows
        some (setRows store key (setCell rows1 row day { d with running_start := some now }),
          some (row, day))
      else
        some (store, ui)

/-- The `delete_row` callback after its trigger/parse guards; `idx` is the
parsed integer index.  It reads and writes only `store.data`; the `ui-store`
is neither an `Input`, `State` nor `Output` of this callback. -/
def delete_row (store : Store) (emp : String) (week : Int) (idx : Int) : Store :=
  let key := (emp, week)
  let rows := rowsOf store key
  if 0 ≤ idx ∧ idx < (rows.length : Int) then
    setRows store key (rows.eraseIdx idx.toNat)
  else store

/-- Client-visible state: the persisted store plus the `ui-store` running
pointer. -/
structure AppState where
  store : Store
  ui : UIStore
deriving DecidableEq

/-- One `delete_row` request applied to the full client state: the callback
has no `ui-store` output, so the pointer is returned untouched. -/
def delete_row_op (st : AppState) (emp : String) (week : Int) (idx : Int) : AppState :=
  ⟨delete_row st.store emp week idx, st.ui⟩

/-- One `toggle` request: row, day, the wall-clock instant `now_iso()`, and
the calendar day `date.today()`. -/
structure ToggleReq where
  row : Nat
  day : Nat
  now : Timestamp
  today : Int
deriving DecidableEq

/-- One `toggle` request applied to the full client state; a raising callback
(`none`) delivers no outputs and leaves the state unchanged. -/
def toggleStep (emp : String) (week : Int) (st : AppState) (req : ToggleReq) :
    AppState :=
  match toggle st.store st.ui emp week req.row req.day req.now req.today with
  | some (s, u) => ⟨s, u⟩
  | none => st

/-- The `load_user` callback: key is the supplied employee and the supplied
week date verbatim; an absent key is created as `{"rows": []}` and saved.
The second component counts `save_json` calls. -/
def load_user (store : Store) (emp : String) (week_date : Option Int) :
    Store × Nat :=
  match week_date with
  | none => (store, 0)
  | some wd =>
    if emp = "" then (store, 0)
    else
      match store.get (emp, wd) with
      | some _ => (store, 0)
      | none => (Store.set store (emp, wd) ⟨[], none, none⟩, 1)

/-- `EMPLOYEE_DATA`. -/
def EMPLOYEE_DATA : List (String × String) :=
  [("Dipangsu Mukherjee", "Technical"), ("Soumya Maity", "Technical"),
   ("Prithish Biswas", "Development"), ("Arya Majumdar", "Development"),
   ("Shahbaz Ali", "Technical"), ("Souma Banerjee", "Sales"),
   ("Shivangi Singh", "Sales"), ("Ritu Das", "Marketing"),
   ("Soumya Manna", "Development"), ("Jayant Rai", "Technical"),
   ("Sayam Rozario", "Admin"), ("Sneha Simran", "Admin"),
   ("Pompi Goswami", "Human Resource"), ("Joydeep Chakraborty", "Sales"),
   ("Peea P Bal", "Placement"), ("Romit Roy", "Admin"), ("Soumi Roy", "Admin"),
   ("Subhasis Marick", "Accountant"), ("Subhojit Chakraborty", "Technical"),
   ("Rohit Kumar Singh", "Technical"), ("Sujay Kumar Lodh", "Technical"),
   ("Rahul Kumar Chakraborty", "Placement"), ("Sandipan Kundu", "Development"),
   ("Sachin Kumar Giri", "Technical"), ("Anamika Dutta", "Sales"),
   ("Sohini Das", "Sales"), ("Aheli Some", "Technical"),
   ("Shubham Kumar Choudhari", "Technical"), ("Mithun Jana", "Technical"),
   ("Saikat Dutta", "Development"), ("Ankan Roy", "Sales"),
   ("Utsav Majumdar", "Sales"), ("Artha Chakraborty", "Marketing"),
   ("Soumen Paul", "Marketing"), ("Papia Biswas", "Sales")]

/-- `EMPLOYEE_DATA.get(emp, "")`. -/
def empDept (emp : String) : String :=
  ((EMPLOYEE_DATA.find? (fun p => p.1 == emp)).map (·.2)).getD ""

/-- Python `round(q, 2)`. -/
def pyRound2 (q : ℚ) : ℚ := (pyRound (q * 100) : ℚ) / 100

/-- One export row of `submit_week`:
`{Employee, Department, Date, Task, Subtask, Hours, Notes}`. -/
structure ExportRecord where
  employee : String
  department : String
  day_date : Int
  task : String
  subtask : String
  hours : ℚ
  notes : String
deriving DecidableEq

/-- The inner `for di, day in enumerate(row["days"])` loop of `submit_week`,
with the running index `di` threaded explicitly. -/
def exportCells (emp dept task subtask : String) (week : Int) (now : Timestamp) :
    Nat → List Day → Option (List ExportRecord)
  | _, [] => some []
  | di, day :: rest => do
    let hrs ← day_total_hours day now
    let recs ← exportCells emp dept task subtask week now (di + 1) rest
    let notes := day.notes.trim
    if hrs > 0 ∨ notes ≠ "" then
      pure (⟨emp, dept, week + (di : Int), task, subtask, pyRound2 hrs, notes⟩ :: recs)
    else
      pure recs

/-- The outer `for row in rows` loop of `submit_week`. -/
def exportAll (emp dept : String) (week : Int) (now : Timestamp) :
    List Row → Option (List ExportRecord)
  | [] => some []
  | row :: rest => do
    let rs ← exportCells emp dept row.task row.subtask week now 0 row.days
    let rest2 ← exportAll emp dept week now rest
    pure (rs ++ rest2)

/-- Outcome of a `submit_week` call that did not raise: the saved store, the
export projection, whether `wb.save(filename)` wrote the spreadsheet, and
whether the `requests.post` to the remote sink was attempted. -/
structure SubmitResult where
  store : Store
  export_data : List ExportRecord
  file_written : Bool
  post_attempted : Bool
deriving DecidableEq

/-- The `submit_week` callback.  `post_status` is the remote sink's status
code (`response.status_code`, or `0` when the POST raised — either way a
value is recorded and the transition continues).  After its guards the code
unconditionally builds the workbook, saves it, posts `export_data`, sets
`entry["submitted"] = True` and persists — there is no emptiness check. -/
def submit_week (n : Option Nat) (store : Store) (emp : String)
    (week_date : Option Int) (now : Timestamp) (post_status : Int) :
    Option SubmitResult :=
  match n, week_date with
  | none, _ => some ⟨store, [], false, false⟩
  | some _, none => some ⟨store, [], false, false⟩
  | some _, some wd =>
    if store = [] ∨ emp = "" then some ⟨store, [], false, false⟩
    else
      let key := (emp, wd)
      let entry := (Store.get store key).getD ⟨[], none, none⟩
      match exportAll emp (empDept emp) wd now entry.rows with
      | none => none
      | some recs =>
        some ⟨Store.set store key
            { entry with submitted := some true, server_upload_status := some post_status },
          recs, true, true⟩

/-- A fresh day object as `add_row` creates it:
`{"sessions": [], "notes": "", "running_start": None}`. -/
def emptyDay : Day := ⟨[], "", none⟩

/-- A fresh task row as `add_row` creates it: seven empty day objects. -/
def freshRow (task subtask : String) : Row :=
  ⟨task, subtask, List.replicate 7 emptyDay⟩

theorem toggle_eq_of_row_oob {store : Store} {emp : String} {week : Int}
    {row : Nat} (ui : UIStore) (day : Nat) (now : Timestamp) (today : Int)
    (h : (rowsOf store (emp, week)).length ≤ row) :
    toggle store ui emp week row day now today = some (store, ui) := by
  simp [toggle, h]

theorem toggle_eq_of_day_oob {store : Store} {emp : String} {week : Int}
    {row day : Nat} (ui : UIStore) (now : Timestamp) (today : Int)
    (h1 : row < (rowsOf store (emp, week)).length)
    (h2 : getCell (rowsOf store (emp, week)) row day = none) :
    toggle store ui emp week row day now today = none := by
  simp [toggle, Nat.not_le.mpr h1, h2]

theorem toggle_eq_of_stop {store : Store} {emp : String} {week : Int}
    {row day : Nat} {e : Entry} {d : Day} (now : Timestamp) (today : Int)
    (hget : store.get (emp, week) = some e)
    (hrow : row < e.rows.length)
    (hcell : getCell e.rows row day = some d) :
    toggle store (some (row, day)) emp week row day now today
      = some (Store.set store (emp, week)
          { e with rows := setCell e.rows row day (stopDay d now) }, none) := by
  simp [toggle, rowsOf_eq_of_get hget, Nat.not_le.mpr hrow, hcell,
    setRows_eq_of_get hget]

theorem toggle_eq_of_not_today {store : Store} {emp : String}
    {week : Int} {row day : Nat} {d : Day} (ui : UIStore) (now : Timestamp)
    {today : Int}
    (hrow : row < (rowsOf store (emp, week)).length)
    (hcell : getCell (rowsOf store (emp, week)) row day = some d)
    (hui : ui ≠ some (row, day))
    (htoday : week + (day : Int) ≠ today) :
    toggle store ui emp week row day now today = some (store, ui) := by
  simp [toggle, Nat.not_le.mpr hrow, hcell, hui, htoday]

theorem toggle_eq_of_start_none {store : Store} {emp : String} {week : Int}
    {row day : Nat} {e : Entry} {d : Day} (now : Timestamp) {today : Int}
    (hget : store.get (emp, week) = some e)
    (hrow : row < e.rows.length)
    (hcell : getCell e.rows row day = some d)
    (htoday : week + (day : Int) = today) :
    toggle store none emp week row day now today
      = some (Store.set store (emp, week)
          { e with rows := setCell e.rows row day { d with running_start := some now } },
        some (row, day)) := by
  simp [toggle, rowsOf_eq_of_get hget, Nat.not_le.mpr hrow, hcell, htoday,
    setRows_eq_of_get hget]

theorem toggle_eq_of_start_other {store : Store} {emp : String} {week : Int}
    {row day r di : Nat} {e : Entry} {d old : Day} (now : Timestamp) {today : Int}
    (hget : store.get (emp, week) = some e)
    (hrow : row < e.rows.length)
    (hcell : getCell e.rows row day = some d)
    (hne : (r, di) ≠ (row, day))
    (hold : getCell e.rows r di = some old)
    (hrun : old.running_start.isSome = true)
    (htoday : week + (day : Int) = today) :
    toggle store (some (r, di)) emp week row day now today
      = some (Store.set store (emp, week)
          { e with rows :=
              (setCell (setCell e.rows r di (stopDay old now)) row day
                { d with running_start := some now }) },
        some (row, day)) := by
  have hui : (some (r, di) : UIStore) ≠ some (row, day) := by
    simpa using hne
  simp [toggle, rowsOf_eq_of_get hget, Nat.not_le.mpr hrow, hcell, hui, htoday,
    hold, hrun, setRows_eq_of_get hget]

/-- Consistency of the `ui-store` running pointer with the persisted
`running_start` fields of the sheet stored under `(emp, week)`:
no pointer and no running cell, or the pointer designates the unique
running cell. -/
def keyInv (emp : String) (week : Int) (st : AppState) : Prop :=
  match st.ui with
  | none => runningCount (rowsOf st.store (emp, week)) = 0
  | some (r, di) => ∃ old,
      getCell (rowsOf st.store (emp, week)) r di = some old ∧
      old.running_start.isSome = true ∧
      runningCount (rowsOf st.store (emp, week)) = 1

theorem runningCount_le_one_of_keyInv {emp : String} {week : Int}
    {st : AppState} (h : keyInv emp week st) :
    runningCount (rowsOf st.store (emp, week)) ≤ 1 := by
  rcases hu : st.ui with _ | ⟨r, di⟩
  · simp only [keyInv, hu] at h; omega
  · simp only [keyInv, hu] at h
    obtain ⟨old, -, -, hc⟩ := h
    omega

theorem dayWeight_stopDay (d : Day) (now : Timestamp) :
    dayWeight (stopDay d now) = 0 := by
  simp [dayWeight, stopDay]

theorem dayWeight_eq_one {d : Day} (h : d.running_start.isSome = true) :
    dayWeight d = 1 := by
  simp [dayWeight, h]

theorem dayWeight_startDay (d : Day) (now : Timestamp) :
    dayWeight { d with running_start := some now } = 1 := by
  simp [dayWeight]

theorem dayWeight_eq_zero {d : Day} (h : d.running_start = none) :
    dayWeight d = 0 := by
  simp [dayWeight, h]

theorem keyInv_toggleStep {emp : String} {week : Int} {st : AppState}
    (req : ToggleReq) (h : keyInv emp week st) :
    keyInv emp week (toggleStep emp week st req) := by
  by_cases hoob : (rowsOf st.store (emp, week)).length ≤ req.row
  · simp only [toggleStep,
      toggle_eq_of_row_oob st.ui req.day req.now req.today hoob]
    exact h
  · push_neg at hoob
    rcases hg : Store.get st.store (emp, week) with _ | e
    · exfalso
      simp [rowsOf, hg] at hoob
    have hrows : rowsOf st.store (emp, week) = e.rows := rowsOf_eq_of_get hg
    rw [hrows] at hoob
    rcases hcell : getCell e.rows req.row req.day with _ | d
    · simp only [toggleStep,
        toggle_eq_of_day_oob st.ui req.now req.today (by rw [hrows]; exact hoob)
          (by rw [hrows]; exact hcell)]
      exact h
    · rcases hu : st.ui with _ | ⟨r, di⟩
      · -- no running pointer
        simp only [keyInv, hu, hrows] at h
        by_cases htoday : week + (req.day : Int) = req.today
        · rw [show st = AppState.mk st.store st.ui from rfl, hu] at *
          simp only [toggleStep,
            toggle_eq_of_start_none req.now hg hoob hcell htoday]
          simp only [keyInv, rowsOf_eq_of_get (Store.get_set_self st.store (emp, week) _)]
          refine ⟨{ d with running_start := some req.now },
            getCell_setCell_self hcell _, rfl, ?_⟩
          have h0 := runningCount_setCell hcell { d with running_start := some req.now }
          have hd0 : d.running_start = none :=
            dayWeight_eq_zero_of_runningCount_zero h hcell
          rw [dayWeight_eq_zero hd0, dayWeight_startDay] at h0
          omega
        · rw [show st = AppState.mk st.store st.ui from rfl, hu] at *
          simp only [toggleStep,
            toggle_eq_of_not_today none req.now (by rw [hrows]; exact hoob)
              (by rw [hrows]; exact hcell) (by simp) htoday]
          simpa [keyInv, hrows] using h
      · -- pointer at (r, di)
        simp only [keyInv, hu, hrows] at h
        obtain ⟨old, hold, hrun, hone⟩ := h
        by_cases heq : (r, di) = (req.row, req.day)
        · -- stop case
          have hui : st.ui = some (req.row, req.day) := by rw [hu, heq]
          have hr1 : r = req.row := congrArg Prod.fst heq
          have hr2 : di = req.day := congrArg Prod.snd heq
          have hdold : old = d := by
            rw [hr1, hr2] at hold
            rw [hold] at hcell
            exact (Option.some.injEq _ _).mp hcell
          rw [show st = AppState.mk st.store st.ui from rfl, hui] at *
          simp only [toggleStep,
            toggle_eq_of_stop req.now req.today hg hoob hcell]
          simp only [keyInv,
            rowsOf_eq_of_get (Store.get_set_self st.store (emp, week) _)]
          have h0 := runningCount_setCell hcell (stopDay d req.now)
          rw [hdold] at hrun
          rw [dayWeight_eq_one hrun, dayWeight_stopDay] at h0
          omega
        · by_cases htoday : week + (req.day : Int) = req.today
          · -- start case with auto-stop of (r, di)
            rw [show st = AppState.mk st.store st.ui from rfl, hu] at *
            simp only [toggleStep,
              toggle_eq_of_start_other req.now hg hoob hcell heq hold hrun htoday]
            simp only [keyInv,
              rowsOf_eq_of_get (Store.get_set_self st.store (emp, week) _)]
            have h1 := runningCount_setCell hold (stopDay old req.now)
            rw [dayWeight_eq_one hrun, dayWeight_stopDay] at h1
            have hzero : runningCount (setCell e.rows r di (stopDay old req.now)) = 0 := by
              omega
            have hcell1 : getCell (setCell e.rows r di (stopDay old req.now))
                req.row req.day = some d := by
              rw [getCell_setCell_ne heq]; exact hcell
            refine ⟨{ d with running_start := some req.now },
              getCell_setCell_self hcell1 _, rfl, ?_⟩
            have h2 := runningCount_setCell hcell1 { d with running_start := some req.now }
            have hd0 : d.running_start = none :=
              dayWeight_eq_zero_of_runningCount_zero hzero hcell1
            rw [dayWeight_eq_zero hd0, dayWeight_startDay] at h2
            omega
          · rw [show st = AppState.mk st.store st.ui from rfl, hu] at *
            simp only [toggleStep,
              toggle_eq_of_not_today (some (r, di)) req.now (by rw [hrows]; exact hoob)
                (by rw [hrows]; exact hcell) (by simpa using heq) htoday]
            simp only [keyInv, hrows]
            exact ⟨old, hold, hrun, hone⟩

theorem keyInv_foldl {emp : String} {week : Int} (reqs : List ToggleReq)
    (st : AppState) (h : keyInv emp week st) :
    keyInv emp week (reqs.foldl (toggleStep emp week) st) := by
  induction reqs generalizing st with
  | nil => exact h
  | cons req rest ih => exact ih _ (keyInv_toggleStep req h)

theorem pyRound_intCast (n : Int) : pyRound ((n : ℚ)) = n := by
  simp only [pyRound, Int.floor_intCast, sub_self]
  norm_num

theorem pyRound_eq_of_near {x : ℚ} {M : Int} (h2 : 2 ∣ M)
    (hlo : (M : ℚ) - 1 / 2 ≤ x) (hhi : x ≤ (M : ℚ)) : pyRound x = M := by
  rcases eq_or_lt_of_le hhi with heq | hlt
  · rw [heq]
    exact pyRound_intCast M
  · have hf : ⌊x⌋ = M - 1 := by
      rw [Int.floor_eq_iff]
      constructor
      · push_cast
        linarith
      · push_cast
        linarith
    simp only [pyRound, hf]
    split_ifs with ha hb hc
    · exfalso
      push_cast at ha
      linarith
    · omega
    · exfalso
      omega
    · omega

theorem pyRound_nonneg {x : ℚ} (h : 0 ≤ x) : 0 ≤ pyRound x := by
  have hf : (0 : Int) ≤ ⌊x⌋ := Int.floor_nonneg.mpr h
  simp only [pyRound]
  split_ifs <;> omega

theorem padZeros_length (w : Nat) (s : String) :
    (padZeros w s).length = (w - s.length) + s.length := by
  simp [padZeros, String.length_append]

theorem zfill2_length_ge {n : Int} (h : 0 ≤ n) : 2 ≤ (zfill2 n).length := by
  rw [zfill2, if_neg (not_lt.mpr h), padZeros_length]
  omega

theorem zfill2_length_lt_sixty : ∀ m : Nat, m < 60 → (zfill2 ((m : Int))).length = 2 := by
  decide

theorem zfill2_length_eq_two {n : Int} (h0 : 0 ≤ n) (h60 : n < 60) :
    (zfill2 n).length = 2 := by
  have hh := zfill2_length_lt_sixty n.toNat (by omega)
  rwa [Int.toNat_of_nonneg h0] at hh

theorem day_total_hours_emptyDay (now : Timestamp) :
    day_total_hours emptyDay now = some 0 := by
  simp [day_total_hours, sessions_hours, running_hours, emptyDay]

/-- C3 counterexample: ordinal 3 (a Wednesday: `weekday 3 = 2`) is supplied as
the week date; the sheet is created and stored under the key with date 3
itself, and nothing is stored under the Monday of that week (ordinal 1) — the
canonical key is not normalized to Monday. -/
theorem load_user_key_not_normalized_to_monday :
    weekday 3 ≠ 0 ∧ monday_of 3 = 1 ∧
    (load_user [] ("A") (some 3)).1.get (("A"), 3) = some ⟨[], none, none⟩ ∧
    (load_user [] ("A") (some 3)).1.get (("A"), 1) = none := by
  decide

/-- C3 amended: `_monday_of` does return the Monday of the supplied date's
week (weekday 0, at most 6 days before it), but `load_user` builds the
storage key from the supplied date verbatim, without Monday normalization
(`_monday_of` is only used for the date picker's initial value). -/
theorem monday_of_is_monday_and_key_is_verbatim :
    (∀ d : Int, weekday (monday_of d) = 0 ∧ monday_of d ≤ d ∧ d - monday_of d < 7) ∧
    (∀ (store : Store) (emp : String) (wd : Int),
      emp ≠ "" → store.get (emp, wd) = none →
      (load_user store emp (some wd)).1.get (emp, wd) = some ⟨[], none, none⟩) := by
  constructor
  · intro d
    simp only [weekday, monday_of]
    omega
  · intro store emp wd hemp hg
    simp [load_user, hemp, hg, Store.get_set_self]

/-- Witness for the amended C3 statement at `d = 10` and a fresh store. -/
theorem monday_of_is_monday_and_key_is_verbatim_witness :
    (weekday (monday_of 10) = 0 ∧ monday_of 10 ≤ 10 ∧ 10 - monday_of 10 < 7) ∧
    (load_user [] ("B") (some 10)).1.get (("B"), 10) = some ⟨[], none, none⟩ :=
  ⟨monday_of_is_monday_and_key_is_verbatim.1 10,
   monday_of_is_monday_and_key_is_verbatim.2 [] ("B") 10 (by decide) (by decide)⟩

/-- C4 counterexample: one row (seven days) exists, the row index 0 is in
range, but day index 7 is out of range for the row's 7 days; `toggle` raises
`IndexError` (modelled `none`) instead of returning the unchanged state. -/
theorem toggle_day_out_of_range_raises :
    toggle [(("A", 1), ⟨[freshRow ("T") ("S")], none, none⟩)] none ("A") 1 0 7 0 1
      = none ∧
    (none : Option (Store × UIStore))
      ≠ some ([(("A", 1), ⟨[freshRow ("T") ("S")], none, none⟩)], none) :=
  ⟨rfl, fun h => Option.noConfusion h⟩

/-- C4 amended: an out-of-range row index is a silent no-op returning the
unchanged state, but the day index is never bounds-checked: for an in-range
row and out-of-range day index the `rows[row]["days"][day]` access raises
(the UI itself only produces day indices 0..6). -/
theorem toggle_row_out_of_range_noop :
    ∀ (store : Store) (ui : UIStore) (emp : String) (week : Int)
      (row day : Nat) (now : Timestamp) (today : Int),
      ((rowsOf store (emp, week)).length ≤ row →
        toggle store ui emp week row day now today = some (store, ui)) ∧
      (row < (rowsOf store (emp, week)).length →
        getCell (rowsOf store (emp, week)) row day = none →
        toggle store ui emp week row day now today = none) := by
  intro store ui emp week row day now today
  exact ⟨fun h => toggle_eq_of_row_oob ui day now today h,
    fun h1 h2 => toggle_eq_of_day_oob ui now today h1 h2⟩

/-- Witness for the amended C4 statement: a stale row index 5 on an empty
sheet is a no-op; day index 7 on an existing row raises. -/
theorem toggle_row_out_of_range_noop_witness :
    toggle [] none ("A") 1 5 0 0 1 = some ([], none) ∧
    toggle [(("A", 1), ⟨[freshRow ("T") ("S")], none, none⟩)] none ("A") 1 0 7 0 1
      = none :=
  ⟨(toggle_row_out_of_range_noop [] none ("A") 1 5 0 0 1).1 (by decide),
   (toggle_row_out_of_range_noop [(("A", 1), ⟨[freshRow ("T") ("S")], none, none⟩)]
      none ("A") 1 0 7 0 1).2 (by decide) (by decide)⟩

/-- C5 counterexample: a sheet stored with `submitted = True` still accepts a
timer start: toggling today's cell sets its `running_start`, so a submitted
sheet is not frozen at the toggle boundary (there is no `submitted` check in
`toggle`). -/
theorem toggle_on_submitted_sheet_starts :
    toggle [(("A", 1), ⟨[freshRow ("T") ("S")], some true, none⟩)] none ("A") 1 0 0 0 1
      = some ([(("A", 1),
          ⟨[⟨"T", "S", ⟨[], "", some 0⟩ :: List.replicate 6 emptyDay⟩], some true, none⟩)],
        some (0, 0)) := by
  rfl

/-- C5 amended: `toggle` never reads the `submitted` flag; on a sheet with
`submitted = True` a start on today's cell proceeds exactly as on an
unsubmitted sheet (and leaves the flag set). -/
theorem toggle_ignores_submitted :
    ∀ (store : Store) (emp : String) (week : Int) (row day : Nat)
      (now : Timestamp) (today : Int) (e : Entry) (d : Day),
      store.get (emp, week) = some e →
      e.submitted = some true →
      row < e.rows.length →
      getCell e.rows row day = some d →
      week + (day : Int) = today →
      toggle store none emp week row day now today
        = some (Store.set store (emp, week)
            { e with rows := setCell e.rows row day { d with running_start := some now } },
          some (row, day)) ∧
      Entry.submitted
          { e with rows := setCell e.rows row day { d with running_start := some now } }
        = some true := by
  intro store emp week row day now today e d hget hsub hrow hcell htoday
  exact ⟨toggle_eq_of_start_none now hget hrow hcell htoday, hsub⟩

/-- Witness for the amended C5 statement on a one-row submitted sheet. -/
theorem toggle_ignores_submitted_witness :
    toggle [(("A", 1), ⟨[freshRow ("T") ("S")], some true, none⟩)] none ("A") 1 0 0 0 1
      = some (Store.set [(("A", 1), ⟨[freshRow ("T") ("S")], some true, none⟩)] (("A"), 1)
          { (⟨[freshRow ("T") ("S")], some true, none⟩ : Entry) with
            rows := setCell [freshRow ("T") ("S")] 0 0
              { emptyDay with running_start := some 0 } },
        some (0, 0)) ∧
    Entry.submitted
        { (⟨[freshRow ("T") ("S")], some true, none⟩ : Entry) with
          rows := setCell [freshRow ("T") ("S")] 0 0
            { emptyDay with running_start := some 0 } }
      = some true :=
  toggle_ignores_submitted [(("A", 1), ⟨[freshRow ("T") ("S")], some true, none⟩)]
    ("A") 1 0 0 0 1 ⟨[freshRow ("T") ("S")], some true, none⟩ emptyDay
    (by decide) rfl (by decide) (by decide) (by decide)

/-- C8 counterexample: the only row holds the running timer and the pointer
is `(0, 0)`; deleting row 0 removes the row but the `delete_row` callback has
no `ui-store` output, so the pointer still reads `(0, 0)` while the sheet has
no rows — a dangling Active-Timer Pointer right after the deletion. -/
theorem delete_row_leaves_dangling_pointer :
    (delete_row_op
        ⟨[(("A", 1), ⟨[⟨"T", "S", ⟨[], "", some 0⟩ :: List.replicate 6 emptyDay⟩],
          none, none⟩)], some (0, 0)⟩ ("A") 1 0).ui = some (0, 0) ∧
    rowsOf (delete_row_op
        ⟨[(("A", 1), ⟨[⟨"T", "S", ⟨[], "", some 0⟩ :: List.replicate 6 emptyDay⟩],
          none, none⟩)], some (0, 0)⟩ ("A") 1 0).store (("A"), 1) = [] := by
  decide

/-- C8 amended: `delete_row` removes the row at an in-bounds index and is a
no-op out of bounds, but it never clears the Active-Timer Pointer: the
`ui-store` is not among the callback's inputs or outputs, so the pointer is
returned untouched (and may dangle). -/
theorem delete_row_removes_row_keeps_pointer :
    ∀ (store : Store) (ui : UIStore) (emp : String) (week : Int) (idx : Int)
      (e : Entry),
      store.get (emp, week) = some e →
      ((0 ≤ idx ∧ idx < (e.rows.length : Int)) →
        delete_row store emp week idx
          = Store.set store (emp, week) { e with rows := e.rows.eraseIdx idx.toNat }) ∧
      (¬(0 ≤ idx ∧ idx < (e.rows.length : Int)) →
        delete_row store emp week idx = store) ∧
      (delete_row_op ⟨store, ui⟩ emp week idx).ui = ui := by
  intro store ui emp week idx e hget
  refine ⟨fun h => ?_, fun h => ?_, rfl⟩
  · simp [delete_row, rowsOf_eq_of_get hget, h, setRows_eq_of_get hget]
  · simp [delete_row, rowsOf_eq_of_get hget, h]

/-- Witness for the amended C8 statement: in-bounds deletion, out-of-bounds
no-op, untouched pointer, on a one-row sheet. -/
theorem delete_row_removes_row_keeps_pointer_witness :
    delete_row [(("A", 1), ⟨[freshRow ("T") ("S")], none, none⟩)] ("A") 1 0
      = Store.set [(("A", 1), ⟨[freshRow ("T") ("S")], none, none⟩)] (("A"), 1)
        { (⟨[freshRow ("T") ("S")], none, none⟩ : Entry) with
          rows := [freshRow ("T") ("S")].eraseIdx (Int.toNat 0) } ∧
    delete_row [(("A", 1), ⟨[freshRow ("T") ("S")], none, none⟩)] ("A") 1 3
      = [(("A", 1), ⟨[freshRow ("T") ("S")], none, none⟩)] ∧
    (delete_row_op ⟨[(("A", 1), ⟨[freshRow ("T") ("S")], none, none⟩)], some (0, 4)⟩
      ("A") 1 0).ui = some (0, 4) := by
  have h := delete_row_removes_row_keeps_pointer
    [(("A", 1), ⟨[freshRow ("T") ("S")], none, none⟩)] (some (0, 4)) ("A") 1
  exact ⟨(h 0 ⟨[freshRow ("T") ("S")], none, none⟩ (by decide)).1 (by decide),
    (h 3 ⟨[freshRow ("T") ("S")], none, none⟩ (by decide)).2.1 (by decide),
    (h 0 ⟨[freshRow ("T") ("S")], none, none⟩ (by decide)).2.2⟩

/-- C9 counterexample: the entry created for an absent key is `{"rows": []}`
— its `submitted` key is absent (`none`), not present-and-false, so the
created sheet is not structurally equal to `{rows: [], submitted: false}`. -/
theorem load_user_creates_entry_without_submitted :
    (load_user [] ("A") (some 1)).1.get (("A"), 1) = some ⟨[], none, none⟩ ∧
    Entry.submitted ⟨[], none, none⟩ ≠ some false ∧
    (⟨[], none, none⟩ : Entry) ≠ ⟨[], some false, none⟩ := by
  decide

/-- C9 amended: on an absent key `load_user` creates and persists
`{"rows": []}` (no `submitted` key — read as false wherever the code would
look, since nothing ever reads it) and returns it; a second call with no
intervening mutation returns the structurally identical store with zero
further persistence writes, so the pair performs at most one write. -/
theorem load_user_idempotent :
    ∀ (store : Store) (emp : String) (wd : Int), emp ≠ "" →
      (load_user (load_user store emp (some wd)).1 emp (some wd)).1
        = (load_user store emp (some wd)).1 ∧
      (load_user (load_user store emp (some wd)).1 emp (some wd)).2 = 0 ∧
      (load_user store emp (some wd)).2 ≤ 1 ∧
      (store.get (emp, wd) = none →
        (load_user store emp (some wd)).1.get (emp, wd) = some ⟨[], none, none⟩ ∧
        (load_user store emp (some wd)).2 = 1) := by
  intro store emp wd hemp
  rcases hg : store.get (emp, wd) with _ | e
  · simp [load_user, hemp, hg, Store.get_set_self]
  · simp [load_user, hemp, hg]

/-- Witness for the amended C9 statement: loading a fresh key twice. -/
theorem load_user_idempotent_witness :
    (load_user (load_user [] ("A") (some 1)).1 ("A") (some 1)).1
      = (load_user [] ("A") (some 1)).1 ∧
    (load_user (load_user [] ("A") (some 1)).1 ("A") (some 1)).2 = 0 ∧
    (load_user [] ("A") (some 1)).2 ≤ 1 ∧
    (Store.get [] (("A"), 1) = none →
      (load_user [] ("A") (some 1)).1.get (("A"), 1) = some ⟨[], none, none⟩ ∧
      (load_user [] ("A") (some 1)).2 = 1) :=
  load_user_idempotent [] ("A") 1 (by decide)

/-- C1: starting from a sheet with no running timer (pointer `none`,
consistent with zero running cells), after any sequence of `toggle` calls at
most one `DayRecord` across all rows and days of the sheet has
`running_start` set; and in the start case with the pointer elsewhere on a
running cell, that cell is auto-stopped (its open interval appended as a
closed session, `running_start` cleared) before the new cell's
`running_start` is set. -/
theorem toggle_single_running_invariant :
    (∀ (emp : String) (week : Int) (reqs : List ToggleReq) (st : AppState),
      st.ui = none →
      runningCount (rowsOf st.store (emp, week)) = 0 →
      runningCount (rowsOf (reqs.foldl (toggleStep emp week) st).store (emp, week)) ≤ 1) ∧
    (∀ (store : Store) (emp : String) (week : Int) (row day r di : Nat)
      (now : Timestamp) (today : Int) (e : Entry) (d old : Day),
      store.get (emp, week) = some e →
      row < e.rows.length →
      getCell e.rows row day = some d →
      (r, di) ≠ (row, day) →
      getCell e.rows r di = some old →
      old.running_start.isSome = true →
      week + (day : Int) = today →
      toggle store (some (r, di)) emp week row day now today
        = some (Store.set store (emp, week)
            { e with rows :=
                (setCell (setCell e.rows r di
                    { old with
                      sessions := old.sessions ++ [(old.running_start, now)],
                      running_start := none }) row day
                  { d with running_start := some now }) },
          some (row, day))) := by
  constructor
  · intro emp week reqs st h0 h1
    have hinv : keyInv emp week st := by
      simp only [keyInv, h0]
      exact h1
    exact runningCount_le_one_of_keyInv (keyInv_foldl reqs st hinv)
  · intro store emp week row day r di now today e d old hget hrow hcell hne hold hrun htoday
    exact toggle_eq_of_start_other now hget hrow hcell hne hold hrun htoday

/-- Witness for C1: two toggles (start Monday cell, then start Tuesday cell
next day) leave at most one running cell; and a concrete auto-stop step. -/
theorem toggle_single_running_invariant_witness :
    runningCount (rowsOf (([⟨0, 0, 0, 1⟩, ⟨0, 1, 10, 2⟩] : List ToggleReq).foldl
        (toggleStep ("A") 1)
        ⟨[(("A", 1), ⟨[freshRow ("T") ("S")], none, none⟩)], none⟩).store (("A"), 1)) ≤ 1 ∧
    toggle [(("A", 1), ⟨[⟨"T", "S", ⟨[], "", some 0⟩ :: List.replicate 6 emptyDay⟩],
        none, none⟩)] (some (0, 0)) ("A") 1 0 1 5 2
      = some ([(("A", 1), ⟨[⟨"T", "S",
          ⟨[(some 0, 5)], "", none⟩ :: ⟨[], "", some 5⟩ :: List.replicate 5 emptyDay⟩],
          none, none⟩)], some (0, 1)) :=
  ⟨toggle_single_running_invariant.1 ("A") 1 [⟨0, 0, 0, 1⟩, ⟨0, 1, 10, 2⟩]
      ⟨[(("A", 1), ⟨[freshRow ("T") ("S")], none, none⟩)], none⟩ rfl (by decide),
   toggle_single_running_invariant.2
      [(("A", 1), ⟨[⟨"T", "S", ⟨[], "", some 0⟩ :: List.replicate 6 emptyDay⟩], none, none⟩)]
      ("A") 1 0 1 0 0 5 2
      ⟨[⟨"T", "S", ⟨[], "", some 0⟩ :: List.replicate 6 emptyDay⟩], none, none⟩
      emptyDay ⟨[], "", some 0⟩
      (by decide) (by decide) (by decide) (by decide) (by decide) rfl (by decide)⟩

/-- C6: with no timer running, a toggle on a cell whose calendar day
(`week date + day index`) is not today is accepted but changes nothing, while
a toggle on today's cell sets that cell's `running_start` to `now`. -/
theorem toggle_start_only_today :
    ∀ (store : Store) (emp : String) (week : Int) (row day : Nat)
      (now : Timestamp) (today : Int) (e : Entry) (d : Day),
      store.get (emp, week) = some e →
      row < e.rows.length →
      getCell e.rows row day = some d →
      (∀ ui : UIStore, ui ≠ some (row, day) → week + (day : Int) ≠ today →
        toggle store ui emp week row day now today = some (store, ui)) ∧
      (week + (day : Int) = today →
        toggle store none emp week row day now today
          = some (Store.set store (emp, week)
              { e with rows := setCell e.rows row day { d with running_start := some now } },
            some (row, day)) ∧
        getCell (rowsOf (Store.set store (emp, week)
              { e with rows := setCell e.rows row day { d with running_start := some now } })
            (emp, week)) row day
          = some { d with running_start := some now }) := by
  intro store emp week row day now today e d hget hrow hcell
  have hrows := rowsOf_eq_of_get hget
  constructor
  · intro ui hui htoday
    exact toggle_eq_of_not_today ui now (by rw [hrows]; exact hrow)
      (by rw [hrows]; exact hcell) hui htoday
  · intro htoday
    refine ⟨toggle_eq_of_start_none now hget hrow hcell htoday, ?_⟩
    rw [rowsOf_eq_of_get (Store.get_set_self store (emp, week) _)]
    exact getCell_setCell_self hcell _

/-- Witness for C6 on a one-row sheet with week start at ordinal 1 and today
being ordinal 1: day index 2 is rejected without a state change, day index 0
starts the timer. -/
theorem toggle_start_only_today_witness :
    toggle [(("A", 1), ⟨[freshRow ("T") ("S")], none, none⟩)] none ("A") 1 0 2 0 1
      = some ([(("A", 1), ⟨[freshRow ("T") ("S")], none, none⟩)], none) ∧
    toggle [(("A", 1), ⟨[freshRow ("T") ("S")], none, none⟩)] none ("A") 1 0 0 0 1
      = some ([(("A", 1),
          ⟨[⟨"T", "S", ⟨[], "", some 0⟩ :: List.replicate 6 emptyDay⟩], none, none⟩)],
        some (0, 0)) :=
  ⟨(toggle_start_only_today [(("A", 1), ⟨[freshRow ("T") ("S")], none, none⟩)]
      ("A") 1 0 2 0 1 ⟨[freshRow ("T") ("S")], none, none⟩ emptyDay
      (by decide) (by decide) (by decide)).1 none (by decide) (by decide),
   ((toggle_start_only_today [(("A", 1), ⟨[freshRow ("T") ("S")], none, none⟩)]
      ("A") 1 0 0 0 1 ⟨[freshRow ("T") ("S")], none, none⟩ emptyDay
      (by decide) (by decide) (by decide)).2 (by decide)).1⟩

/-- C7: toggling the cell the active pointer designates (whose
`running_start` holds `t0`) appends exactly the one closed session
`[t0, now]`, clears `running_start`, clears the pointer, and never fails;
the 90-minute scenario yields one session, 1.5 total hours, displayed
`"01:30"`. -/
theorem toggle_stop_appends_session :
    (∀ (store : Store) (emp : String) (week : Int) (row day : Nat)
      (now : Timestamp) (today : Int) (e : Entry) (d : Day) (t0 : Timestamp),
      store.get (emp, week) = some e →
      row < e.rows.length →
      getCell e.rows row day = some d →
      d.running_start = some t0 →
      toggle store (some (row, day)) emp week row day now today
        = some (Store.set store (emp, week)
            { e with rows := (setCell e.rows row day
                { d with
                  sessions := d.sessions ++ [(some t0, now)],
                  running_start := none }) },
          none)) ∧
    day_total_hours ⟨[(some 0, 5400)], "", none⟩ 5400 = some (3 / 2) ∧
    format_hours_hhmm (3 / 2) = "01:30" := by
  refine ⟨?_, ?_, ?_⟩
  · intro store emp week row day now today e d t0 hget hrow hcell hrs
    have h := toggle_eq_of_stop now today hget hrow hcell
    rw [h]
    simp only [stopDay, hrs]
  · simp [day_total_hours, sessions_hours, session_hours, running_hours]
    norm_num
  · have h90 : (3 / 2 : ℚ) * 60 = ((90 : Int) : ℚ) := by norm_num
    have hp : pyRound ((3 / 2 : ℚ) * 60) = 90 := by
      rw [h90]
      exact pyRound_intCast 90
    simp only [format_hours_hhmm, hp]
    decide

/-- Witness for C7: stopping a timer started at second 0 at second 5400
(90 minutes later). -/
theorem toggle_stop_appends_session_witness :
    toggle [(("A", 1), ⟨[⟨"T", "S", ⟨[], "", some 0⟩ :: List.replicate 6 emptyDay⟩],
        none, none⟩)] (some (0, 0)) ("A") 1 0 0 5400 1
      = some ([(("A", 1), ⟨[⟨"T", "S",
          ⟨[(some 0, 5400)], "", none⟩ :: List.replicate 6 emptyDay⟩], none, none⟩)],
        none) :=
  toggle_stop_appends_session.1
    [(("A", 1), ⟨[⟨"T", "S", ⟨[], "", some 0⟩ :: List.replicate 6 emptyDay⟩], none, none⟩)]
    ("A") 1 0 0 5400 1
    ⟨[⟨"T", "S", ⟨[], "", some 0⟩ :: List.replicate 6 emptyDay⟩], none, none⟩
    ⟨[], "", some 0⟩ 0 (by decide) (by decide) (by decide) rfl

theorem exportCells_eq_nil (emp dept task subtask : String) (week : Int)
    (now : Timestamp) (di : Nat) (days : List Day)
    (h : ∀ d ∈ days, day_total_hours d now = some 0 ∧ d.notes.trim = "") :
    exportCells emp dept task subtask week now di days = some [] := by
  induction days generalizing di with
  | nil => rfl
  | cons day rest ih =>
    obtain ⟨h1, h2⟩ := h day (List.mem_cons_self day rest)
    have hr := ih (di + 1) (fun d hd => h d (List.mem_cons_of_mem day hd))
    simp [exportCells, h1, hr, h2]

theorem exportAll_eq_nil (emp dept : String) (week : Int) (now : Timestamp)
    (rows : List Row)
    (h : ∀ row ∈ rows, ∀ d ∈ row.days,
      day_total_hours d now = some 0 ∧ d.notes.trim = "") :
    exportAll emp dept week now rows = some [] := by
  induction rows with
  | nil => rfl
  | cons row rest ih =>
    have h1 := exportCells_eq_nil emp dept row.task row.subtask week now 0 row.days
      (h row (List.mem_cons_self row rest))
    have hr := ih (fun r hrr => h r (List.mem_cons_of_mem row hrr))
    simp [exportAll, h1, hr]

/-- C2 counterexample: a stored week whose export record set is empty (no
rows, so every one of its 7×N cells trivially has zero hours and empty
notes) — yet `submit_week` still writes the spreadsheet file, still posts to
the remote sink, records the upload status, and flips `submitted` to true.
It is not a no-op and does not leave the sheet unchanged. -/
theorem submit_empty_not_noop :
    submit_week (some 1) [(("A", 1), ⟨[], none, none⟩)] ("A") (some 1) 0 200
      = some ⟨[(("A", 1), ⟨[], some true, some 200⟩)], [], true, true⟩ := by
  have hguard : ¬([(("A", 1), (⟨[], none, none⟩ : Entry))] = ([] : Store)
      ∨ ("A" : String) = "") := by
    decide
  simp only [submit_week]
  rw [if_neg hguard]
  simp [Store.get, Store.set, exportAll]

/-- C2 amended: when every cell of the stored week has zero `DayTotalHours`
and empty (stripped) notes, the export record set is empty, but `submit_week`
still writes the spreadsheet, still attempts the remote post, records the
upload status and sets `submitted = true`, persisting the modified entry. -/
theorem submit_empty_records_still_submits :
    ∀ (store : Store) (emp : String) (wd : Int) (now : Timestamp) (status : Int)
      (n : Nat) (e : Entry),
      store ≠ [] → emp ≠ "" → store.get (emp, wd) = some e →
      (∀ row ∈ e.rows, ∀ d ∈ row.days,
        day_total_hours d now = some 0 ∧ d.notes.trim = "") →
      submit_week (some n) store emp (some wd) now status
        = some ⟨Store.set store (emp, wd)
            { e with submitted := some true, server_upload_status := some status },
          [], true, true⟩ := by
  intro store emp wd now status n e hs hemp hget hcells
  have hexp := exportAll_eq_nil emp (empDept emp) wd now e.rows hcells
  simp [submit_week, hs, hemp, hget, hexp]

/-- Witness for the amended C2 statement: a stored week with no rows (every
cell of its 7×0 cells trivially has zero hours and empty notes). -/
theorem submit_empty_records_still_submits_witness :
    submit_week (some 1) [(("A", 1), ⟨[], none, none⟩)] ("A") (some 1) 0 404
      = some ⟨Store.set [(("A", 1), ⟨[], none, none⟩)] (("A"), 1)
          { (⟨[], none, none⟩ : Entry) with
            submitted := some true, server_upload_status := some 404 },
        [], true, true⟩ :=
  submit_empty_records_still_submits [(("A", 1), ⟨[], none, none⟩)] ("A") 1 0 404 1
    ⟨[], none, none⟩ (by decide) (by decide) (by decide)
    (fun row hr => absurd hr (List.not_mem_nil row))

/-- C10: for every non-negative hours value, the minutes field of
`format_hours_hhmm` lies in 0..59 and both fields are zero-padded to at
least two digits (the minutes field to exactly two); any value within half a
minute below (or equal to) a whole number of hours formats as that hour with
`":00"` minutes — the carry goes into the hours field, never a `":60"`; and
the hours field is unbounded: a whole number of hours `n` yields hours field
`n` for every `n`. -/
theorem format_hours_hhmm_fields :
    (∀ h : ℚ, 0 ≤ h →
      0 ≤ Int.emod (pyRound (h * 60)) 60 ∧
      Int.emod (pyRound (h * 60)) 60 < 60 ∧
      format_hours_hhmm h
        = zfill2 (Int.fdiv (pyRound (h * 60)) 60) ++ ":"
          ++ zfill2 (Int.emod (pyRound (h * 60)) 60) ∧
      2 ≤ (zfill2 (Int.fdiv (pyRound (h * 60)) 60)).length ∧
      (zfill2 (Int.emod (pyRound (h * 60)) 60)).length = 2) ∧
    (∀ (h : ℚ) (H : Nat), 0 ≤ h →
      (H : ℚ) * 60 - 1 / 2 ≤ h * 60 → h * 60 ≤ (H : ℚ) * 60 →
      format_hours_hhmm h = zfill2 ((H : Int)) ++ ":00") ∧
    (∀ n : Nat, Int.fdiv (pyRound ((n : ℚ) * 60)) 60 = ((n : Int))) := by
  refine ⟨?_, ?_, ?_⟩
  · intro h hh0
    have hm0 : 0 ≤ Int.emod (pyRound (h * 60)) 60 :=
      Int.emod_nonneg _ (by norm_num)
    have hm1 : Int.emod (pyRound (h * 60)) 60 < 60 :=
      Int.emod_lt_of_pos _ (by norm_num)
    have hdnn : 0 ≤ Int.fdiv (pyRound (h * 60)) 60 :=
      Int.fdiv_nonneg (pyRound_nonneg (by positivity)) (by norm_num)
    exact ⟨hm0, hm1, rfl, zfill2_length_ge hdnn, zfill2_length_eq_two hm0 hm1⟩
  · intro h H hh0 hlo hhi
    have hM : pyRound (h * 60) = 60 * (H : Int) := by
      apply pyRound_eq_of_near ⟨30 * (H : Int), by ring⟩
      · push_cast
        linarith
      · push_cast
        linarith
    have hfd : Int.fdiv (60 * (H : Int)) 60 = (H : Int) :=
      Int.mul_fdiv_cancel_left _ (by norm_num)
    have hmd : Int.emod (60 * (H : Int)) 60 = 0 := Int.mul_emod_right 60 _
    simp only [format_hours_hhmm, hM, hfd, hmd]
    rw [String.append_assoc]
    exact congrArg (fun t => zfill2 ((H : Int)) ++ t) (by decide)
  · intro n
    have hM : pyRound ((n : ℚ) * 60) = 60 * (n : Int) := by
      apply pyRound_eq_of_near ⟨30 * (n : Int), by ring⟩
      · push_cast
        linarith
      · push_cast
        linarith
    rw [hM]
    exact Int.mul_fdiv_cancel_left _ (by norm_num)

/-- Witness for C10 at 1.5 hours, at 239/120 hours (119.5 minutes, within
half a minute below two hours, formatting as `"02:00"`), and at 5 whole
hours. -/
theorem format_hours_hhmm_fields_witness :
    (0 ≤ Int.emod (pyRound ((3 / 2 : ℚ) * 60)) 60 ∧
     Int.emod (pyRound ((3 / 2 : ℚ) * 60)) 60 < 60 ∧
     format_hours_hhmm (3 / 2)
       = zfill2 (Int.fdiv (pyRound ((3 / 2 : ℚ) * 60)) 60) ++ ":"
         ++ zfill2 (Int.emod (pyRound ((3 / 2 : ℚ) * 60)) 60) ∧
     2 ≤ (zfill2 (Int.fdiv (pyRound ((3 / 2 : ℚ) * 60)) 60)).length ∧
     (zfill2 (Int.emod (pyRound ((3 / 2 : ℚ) * 60)) 60)).length = 2) ∧
    format_hours_hhmm (239 / 120) = zfill2 (((2 : Nat) : Int)) ++ ":00" ∧
    Int.fdiv (pyRound (((5 : Nat) : ℚ) * 60)) 60 = (((5 : Nat) : Int)) :=
  ⟨format_hours_hhmm_fields.1 (3 / 2) (by norm_num),
   format_hours_hhmm_fields.2.1 (239 / 120) 2 (by norm_num) (by norm_num) (by norm_num),
   format_hours_hhmm_fields.2.2 5⟩

end Timesheet
